import Mathlib

/-!
Verification of the DMC (Data Module Code) derivation, S1000D document
assembly, content cleanup and hierarchy search logic of the repository.

JavaScript strings are modelled as `List Char` (`Str`).  JavaScript string
operations used by the source (`split('-')`, template-literal joins,
`s[i]`, `slice(0,-1)`, `slice(-1)`, `trim()`, `padStart(2,'0')`,
`toLowerCase()`, `includes`) are each given a direct counterpart below.
The file is organised as: all definitions first, then all theorems.
-/

/-- JavaScript strings, modelled as lists of characters. -/
abbrev Str := List Char

/-- Coerce a Lean string literal to the `Str` model. -/
def jsStr (s : String) : Str := s.data

/-- Splitting a string at every occurrence of a separator character,
with the semantics of JavaScript `String.prototype.split(sep)` for a
one-character separator: `"".split('-') == ['']`, empty fields kept. -/
def splitSep (sep : Char) : Str → List Str
  | [] => [[]]
  | c :: cs =>
    if c = sep then [] :: splitSep sep cs
    else
      match splitSep sep cs with
      | [] => [[c]]
      | p :: ps => (c :: p) :: ps

/-- Joining a list of fields with a separator character, as a JavaScript
template literal `` `${a}-${b}-...` `` does. -/
def joinSep (sep : Char) : List Str → Str
  | [] => []
  | [p] => p
  | p :: q :: ps => p ++ sep :: joinSep sep (q :: ps)

/-- JavaScript `s[i] || ''` for a string `s`: the one-character string at
index `i`, or the empty string when out of range. -/
def jsCharAt (s : Str) (i : Nat) : Str :=
  match s[i]? with
  | some c => [c]
  | none => []

/-- JavaScript `s.slice(-1) || ''`: the last character as a one-character
string, or the empty string when `s` is empty. -/
def jsSliceLast (s : Str) : Str :=
  match s.getLast? with
  | some c => [c]
  | none => []

/-- Result of `processDMC`: the (possibly upgraded) code and the derived
document type string (`"proced"` or `"descript"`). -/
structure DMCResult where
  dmc : Str
  docType : Str
deriving DecidableEq, Repr

/-- Shallow embedding of `processDMC` (src/unnamed/part_000, lines 381-401).
Splits `baseCode` on `'-'`; when there are exactly 9 fields it rebuilds the
code with field 4 split into its first and second character, fields 7 and 8
each split into all-but-last and last character, and classifies the document
type as `"proced"` exactly when the extracted info code is `"000"`;
otherwise it returns the input unchanged with document type `"descript"`.
(`p7.slice(0,-1) || ''` equals `List.dropLast p7`: the JavaScript `|| ''`
only turns an empty slice into `''` again.) -/
def processDMC (baseCode : Str) : DMCResult :=
  let parts := splitSep '-' baseCode
  if h : parts.length = 9 then
    let p1 := parts.get ⟨0, by omega⟩
    let p2 := parts.get ⟨1, by omega⟩
    let p3 := parts.get ⟨2, by omega⟩
    let p4 := parts.get ⟨3, by omega⟩
    let p5 := parts.get ⟨4, by omega⟩
    let p6 := parts.get ⟨5, by omega⟩
    let p7 := parts.get ⟨6, by omega⟩
    let p8 := parts.get ⟨7, by omega⟩
    let p9 := parts.get ⟨8, by omega⟩
    let subSystemCode := jsCharAt p4 0
    let subSubSystemCode := jsCharAt p4 1
    let disassyCode := p7.dropLast
    let disassyCodeVariant := jsSliceLast p7
    let infoCode := p8.dropLast
    let infoCodeVariant := jsSliceLast p8
    let dmc := joinSep '-' [p1, p2, p3, subSystemCode, subSubSystemCode, p5, p6,
      disassyCode, disassyCodeVariant, infoCode, infoCodeVariant, p9]
    { dmc := dmc, docType := if infoCode = jsStr "000" then jsStr "proced" else jsStr "descript" }
  else
    { dmc := baseCode, docType := jsStr "descript" }

/-- Error kinds of the spec's Code Model `parse`. -/
inductive FormatError where
  | badSegmentCount
  | badSegmentChars
deriving DecidableEq, Repr

/-- A parsed code: its ordered list of hyphen-delimited segments. -/
structure Code where
  segments : List Str
deriving DecidableEq, Repr

/-- ASCII alphanumeric character. -/
def isAlnum (c : Char) : Bool := c.isAlpha || c.isDigit

/-- One segment of a code: nonempty and alphanumeric. -/
def segOk (p : Str) : Bool := !p.isEmpty && p.all isAlnum

/-- Modelled from the spec: the repository's provided sources contain no
standalone Code Model `parse` function (only `processDMC`, which never
fails); this follows spec section 4.1: split on `-`, fail with a
`FormatError` when the segment count is neither 9 nor 11 or when a segment
fails its character-class check ("constrained alphanumeric pattern"). -/
def parse (raw : Str) : Except FormatError Code :=
  let parts := splitSep '-' raw
  if parts.length = 9 ∨ parts.length = 11 then
    if parts.all segOk then Except.ok ⟨parts⟩ else Except.error FormatError.badSegmentChars
  else Except.error FormatError.badSegmentCount

/-- Modelled from the spec: Code Model `format` joins the segments with
`-` (spec section 4.1). -/
def format (c : Code) : Str := joinSep '-' c.segments

/-- The ECMAScript white-space and line-terminator set used by `\s`,
`trim()` and friends. -/
def isJsWs (c : Char) : Bool :=
  c = ' ' || c = '\t' || c = '\n' || c = '\r' || c.val = 0x0B || c.val = 0x0C ||
  c.val = 0xA0 || c.val = 0x1680 || (0x2000 ≤ c.val && c.val ≤ 0x200A) ||
  c.val = 0x2028 || c.val = 0x2029 || c.val = 0x202F || c.val = 0x205F ||
  c.val = 0x3000 || c.val = 0xFEFF

/-- JavaScript `String.prototype.trim()`. -/
def jsTrim (s : Str) : Str := ((s.dropWhile isJsWs).reverse.dropWhile isJsWs).reverse

/-- The decimal digit character for `d < 10`. -/
def digitChar (d : Nat) : Char :=
  if d = 0 then '0' else if d = 1 then '1' else if d = 2 then '2' else if d = 3 then '3'
  else if d = 4 then '4' else if d = 5 then '5' else if d = 6 then '6' else if d = 7 then '7'
  else if d = 8 then '8' else '9'

/-- JavaScript `String(n)` for a natural number: decimal digits. -/
def natStr (n : Nat) : Str :=
  if _h : n < 10 then [digitChar n]
  else natStr (n / 10) ++ [digitChar (n % 10)]
termination_by n
decreasing_by exact Nat.div_lt_self (by omega) (by omega)

/-- JavaScript `s.padStart(2, '0')`. -/
def padStart2 (s : Str) : Str :=
  if s.length < 2 then List.replicate (2 - s.length) '0' ++ s else s

/-- Shallow embedding of the code-building core of `updateResult`
(src/unnamed/part_002, lines 167-169).  DOM inputs are parameters: the raw
text-field values (`updateResult` trims them itself), the selected info
code and system/subsystem codes held in module state, the parsed unit
count (`parseInt(unitCountInput.value) || 0`), and the per-unit
disassembly-code table inputs (`dcValue u` is `none` when
`querySelector` finds no input for unit `u`, else the input's raw value).
Returns the list of generated DM codes (empty when the guard clears the
result). -/
def updateResult (modelRaw sdcRaw dmvRaw infoVariantRaw : Str)
    (selectedBaseInfoCode selectedSystemCode selectedSubsystemCode : Str)
    (unitCount : Int) (dcValue : Nat → Option Str) : List Str :=
  let model := jsTrim modelRaw
  let sdc := jsTrim sdcRaw
  let dmv := jsTrim dmvRaw
  let infoCodeVariant := jsTrim infoVariantRaw
  let finalInfoCode :=
    if selectedBaseInfoCode ≠ [] then selectedBaseInfoCode ++ infoCodeVariant else jsStr "000"
  if model = [] ∨ sdc = [] ∨ selectedSystemCode = [] ∨ 1 < dmv.length then []
  else
    let combinedSystemCode := selectedSystemCode ++ '-' :: selectedSubsystemCode
    let itemLocationCode := jsStr "D"
    if unitCount ≤ 0 then
      let dcCode := padStart2 (match dcValue 0 with | some v => jsTrim v | none => jsStr "00")
      [joinSep '-' [model, sdc, combinedSystemCode, jsStr "00", dcCode ++ dmv,
        finalInfoCode, itemLocationCode]]
    else
      (List.range unitCount.toNat).map (fun j =>
        let unitCode := padStart2 (natStr (j + 1))
        let dcCode := padStart2 (match dcValue (j + 1) with | some v => jsTrim v | none => jsStr "00")
        joinSep '-' [model, sdc, combinedSystemCode, unitCode, dcCode ++ dmv,
          finalInfoCode, itemLocationCode])

/-- ECMAScript line terminators (`.` excludes them; `^`/`$` with the `m`
flag match around them). -/
def isLineTerm (c : Char) : Bool :=
  c = '\n' || c = '\r' || c.val = 0x2028 || c.val = 0x2029

/-- Character classes appearing in the source's regexes: `.` (any char but
a line terminator), `\s` (ECMAScript white space), and a literal char. -/
inductive CC where
  | dot
  | wsp
  | chr (c : Char)
deriving DecidableEq, Repr

/-- Does a character class match a character? -/
def ccMatch : CC → Char → Bool
  | CC.dot, c => !(isLineTerm c)
  | CC.wsp, c => isJsWs c
  | CC.chr d, c => c = d

/-- The regex fragment used by `cleanupAdocContent`: concatenation,
single-character classes, greedy star/plus and lazy plus over a character
class, the multiline anchors `^`/`$`, and one capture group. -/
inductive RE where
  | eps
  | cls (cc : CC)
  | cat (a b : RE)
  | starG (cc : CC)
  | plusG (cc : CC)
  | plusL (cc : CC)
  | bol
  | eol
  | grp (r : RE)
deriving DecidableEq, Repr

/-- One way a regex can match at the current position: the consumed prefix,
the remaining suffix, and the capture of group 1 (if any). -/
structure MRes where
  consumed : Str
  remaining : Str
  cap : Option Str
deriving DecidableEq, Repr

/-- All nonempty prefixes of the maximal run of `cc`-matching characters,
shortest first, each with its remaining suffix. -/
def takesFrom (cc : CC) : Str → List (Str × Str)
  | [] => []
  | c :: t =>
    if ccMatch cc c then ([c], t) :: (takesFrom cc t).map (fun p => (c :: p.1, p.2))
    else []

/-- Concatenation of the images of `f`, in order (`List.flatMap`). -/
def catMap (f : α → List β) : List α → List β
  | [] => []
  | a :: l => f a ++ catMap f l

/-- The last character of `l`, falling back to `prev` when `l` is empty:
the character immediately to the left of the current position. -/
def lastOr (prev : Option Char) (l : Str) : Option Char :=
  match l.getLast? with
  | some c => some c
  | none => prev

/-- First-of capture merge (at most one group per regex here). -/
def optOr (a b : Option Str) : Option Str :=
  match a with
  | some x => some x
  | none => b

/-- All candidate matches of a regex at the start of `s`, in the preference
order of the ECMAScript backtracking engine (`prev` is the character just
before the current position, for the `m`-flag anchors): greedy quantifiers
yield longest first, lazy ones shortest first, and concatenation explores
the left side's candidates in order with full backtracking on the right. -/
def mtch : RE → Option Char → Str → List MRes
  | RE.eps, _, s => [⟨[], s, none⟩]
  | RE.cls cc, _, s =>
    match s with
    | [] => []
    | c :: t => if ccMatch cc c then [⟨[c], t, none⟩] else []
  | RE.cat a b, prev, s =>
    catMap (fun ra =>
      (mtch b (lastOr prev ra.consumed) ra.remaining).map (fun rb =>
        ⟨ra.consumed ++ rb.consumed, rb.remaining, optOr ra.cap rb.cap⟩))
      (mtch a prev s)
  | RE.starG cc, _, s =>
    ((takesFrom cc s).reverse).map (fun p => ⟨p.1, p.2, none⟩) ++ [⟨[], s, none⟩]
  | RE.plusG cc, _, s => ((takesFrom cc s).reverse).map (fun p => ⟨p.1, p.2, none⟩)
  | RE.plusL cc, _, s => (takesFrom cc s).map (fun p => ⟨p.1, p.2, none⟩)
  | RE.bol, prev, s =>
    match prev with
    | none => [⟨[], s, none⟩]
    | some c => if isLineTerm c then [⟨[], s, none⟩] else []
  | RE.eol, _, s =>
    match s with
    | [] => [⟨[], s, none⟩]
    | c :: _ => if isLineTerm c then [⟨[], s, none⟩] else []
  | RE.grp r, prev, s =>
    (mtch r prev s).map (fun m => ⟨m.consumed, m.remaining, some m.consumed⟩)

/-- A leftmost match: the unmatched prefix before it, the matched text, the
remaining suffix after it, and the group-1 capture. -/
structure FRes where
  pre : Str
  matched : Str
  remaining : Str
  cap : Option Str
deriving DecidableEq, Repr

/-- The leftmost match of `r` in `s` (taking at each position the engine's
first candidate), as ECMAScript regex search does. -/
def findFrom (r : RE) (prev : Option Char) : Str → Option FRes
  | [] =>
    match (mtch r prev []).head? with
    | some m => some ⟨[], m.consumed, m.remaining, m.cap⟩
    | none => none
  | c :: t =>
    match (mtch r prev (c :: t)).head? with
    | some m => some ⟨[], m.consumed, m.remaining, m.cap⟩
    | none => (findFrom r (some c) t).map (fun f => ⟨c :: f.pre, f.matched, f.remaining, f.cap⟩)

/-- Global replacement loop of `String.prototype.replace` with a `/g`
regex: repeatedly take the leftmost match after the previous one and splice
in the replacement (matches are found against the original text; an empty
match advances by one character, as `lastIndex` does).  `fuel` bounds the
number of matches; `replaceG` supplies `s.length + 1`, which is enough
because every iteration either consumes a nonempty match or advances one
character. -/
def replaceGAux (r : RE) (tmpl : Option Str → Str) : Nat → Option Char → Str → Str
  | 0, _, s => s
  | fuel + 1, prev, s =>
    match findFrom r prev s with
    | none => s
    | some f =>
      match f.matched with
      | [] =>
        match f.remaining with
        | [] => f.pre ++ tmpl f.cap
        | c :: t => f.pre ++ tmpl f.cap ++ c :: replaceGAux r tmpl fuel (some c) t
      | _ :: _ =>
        f.pre ++ tmpl f.cap ++
          replaceGAux r tmpl fuel (lastOr prev (f.pre ++ f.matched)) f.remaining

/-- JavaScript `s.replace(regex-with-g-flag, tmpl)`. -/
def replaceG (r : RE) (tmpl : Option Str → Str) (s : Str) : Str :=
  replaceGAux r tmpl (s.length + 1) none s

/-- A regex matching a literal string. -/
def reOfStr : Str → RE
  | [] => RE.eps
  | c :: cs => RE.cat (RE.cls (CC.chr c)) (reOfStr cs)

/-- The regex `/(.+?)\s*\+\s*$/gm` of `cleanupAdocContent`. -/
def re1 : RE :=
  RE.cat (RE.grp (RE.plusL CC.dot))
    (RE.cat (RE.starG CC.wsp)
      (RE.cat (RE.cls (CC.chr '+')) (RE.cat (RE.starG CC.wsp) RE.eol)))

/-- The regex `/^\s*\{plus\}\s*$/gm` of `cleanupAdocContent`. -/
def re2 : RE :=
  RE.cat RE.bol
    (RE.cat (RE.starG CC.wsp)
      (RE.cat (reOfStr (jsStr "{plus}")) (RE.cat (RE.starG CC.wsp) RE.eol)))

/-- The regex `/(--\n)\s+/g` of `cleanupAdocContent`. -/
def re3a : RE := RE.cat (RE.grp (reOfStr (jsStr "--\n"))) (RE.plusG CC.wsp)

/-- The regex `/\s+(\n--)/g` of `cleanupAdocContent`. -/
def re3b : RE := RE.cat (RE.plusG CC.wsp) (RE.grp (reOfStr (jsStr "\n--")))

/-- The regex `/\s*^\s*-{3,}\s*$\s*/gm` of `cleanupAdocContent`. -/
def re4 : RE :=
  RE.cat (RE.starG CC.wsp)
    (RE.cat RE.bol
      (RE.cat (RE.starG CC.wsp)
        (RE.cat (reOfStr (jsStr "---"))
          (RE.cat (RE.starG (CC.chr '-'))
            (RE.cat (RE.starG CC.wsp) (RE.cat RE.eol (RE.starG CC.wsp)))))))

/-- The replacement template `'$1'`. -/
def tmplGroup (cap : Option Str) : Str := cap.getD []

/-- A constant replacement template. -/
def tmplConst (t : Str) (_ : Option Str) : Str := t

/-- Shallow embedding of `cleanupAdocContent` (src/unnamed/part_000,
lines 488-503): the five global regex replacements, in source order —
strip trailing `+` markers, turn a standalone `{plus}` line into `+`,
delete white space after an opening `--` line and before a closing `--`
line, and normalise runs of 3+ dashes on a line to a canonical thematic
break surrounded by blank lines. -/
def cleanupAdocContent (content : Str) : Str :=
  let c1 := replaceG re1 tmplGroup content
  let c2 := replaceG re2 (tmplConst (jsStr "+")) c1
  let c3 := replaceG re3a tmplGroup c2
  let c4 := replaceG re3b tmplGroup c3
  replaceG re4 (tmplConst (jsStr "\n\n---\n\n")) c4

/-- Does every match of the regex necessarily consume the literal
character `c`?  (Conservative syntactic check.) -/
def mandatory (c : Char) : RE → Bool
  | RE.eps | RE.bol | RE.eol => false
  | RE.cls cc => cc = CC.chr c
  | RE.starG _ => false
  | RE.plusG cc => cc = CC.chr c
  | RE.plusL cc => cc = CC.chr c
  | RE.cat a b => mandatory c a || mandatory c b
  | RE.grp r => mandatory c r

/-- The fixed part of the procedural S1000D header before the interpolated
code (src/unnamed/part_000, line 405). -/
def procHeaderHead : Str := jsStr "= My Procedural Data Module\n:dmc: DMC-"

/-- The fixed part of the procedural S1000D header after the interpolated
code (src/unnamed/part_000, lines 406-453), including the procedural
section anchors "Preliminary Requirements" and "Main Procedure". -/
def procHeaderTail : Str := jsStr "\n:dm-type: procedural\n:issue-number: 001\n:issue-date: 2023-10-26\n:tech-name: Comprehensive Converter Test Procedure\n:dm-title: Step-by-Step Guide\n:revdate: 2025-09-02\n:in-work: 00\n:lang: en\n:country-code: IN\n:security-classification: 01\n:responsible-partner-company: LNTDEFENCE\n:enterprise-code-rpc: 1671Y\n:originator-enterprise: LNTDEFENCE\n:enterprise-code-originator: 1671Y\n:applicability: All applicable units and serial numbers.\n:brex-dmc: DMC-GSV-H-041-1-0-0301-00-A-022-A-D\n:reason-for-update: Initial draft for demonstration purposes.\n:s1000d-schema-base-path: http://www.s1000d.org/S1000D_4-2/xml_schema_flat/\n\n[[prelim_reqs]]\n== Preliminary Requirements\n\n[[required_conditions_pr]]\n=== Required Conditions\n\n[[required_persons_pr]]\n=== Required Persons\n\n[[required_tech_info_pr]]\n=== Required Technical Information\n\n[[required_equip_pr]]\n=== Required Support Equipment\n\n[[required_supplies_pr]]\n=== Required Supplies\n\n[[required_spares_pr]]\n=== Required Spares\n\n[[required_safety_pr]]\n=== Required Safety\n\n[[main_proc_steps]]\n== Main Procedure\n\n"

/-- The fixed part of the descriptive S1000D header before the interpolated
code (src/unnamed/part_000, line 455). -/
def descHeaderHead : Str := jsStr ":dmc: DMC-"

/-- The fixed part of the descriptive S1000D header after the interpolated
code (src/unnamed/part_000, lines 456-472). -/
def descHeaderTail : Str := jsStr "\n:dm-type: descript\n:issue-number: 001\n:dm-title: Sample Descriptive Module\n:revdate: 2025-09-02\n:in-work: 00\n:lang: en\n:country-code: IN\n:security-classification: 01\n:responsible-partner-company: LNTDEFENCE\n:enterprise-code-rpc: 1671Y\n:originator-enterprise: LNTDEFENCE\n:enterprise-code-originator: 1671Y\n:applicability: All applicable units and serial numbers.\n:brex-dmc: DMC-GSV-H-041-1-0-0301-00-A-022-A-D\n:reason-for-update: Initial draft for demonstration purposes.\n\n"

/-- Shallow embedding of `createS1000DHeader` (src/unnamed/part_000,
lines 403-474): the procedural template exactly when `docType` is the
string `"proced"`, the descriptive template for every other value. -/
def createS1000DHeader (dmc docType : Str) : Str :=
  if docType = jsStr "proced" then procHeaderHead ++ dmc ++ procHeaderTail
  else descHeaderHead ++ dmc ++ descHeaderTail

/-- Shallow embedding of `createProceduralFooter` (src/unnamed/part_000,
lines 476-486): the fixed "Closeout Requirements" section. -/
def createProceduralFooter : Str := jsStr "\n\n[[closeout_reqs]]\n== Closeout Requirements\n\n[[closeout_conds_after]]\n=== Required Conditions After Job Completion\n\n"

/-- Shallow embedding of the document-assembly step of `convertDocxToAdoc`
(src/unnamed/part_000, lines 184-190): header plus cleaned body, plus the
procedural footer exactly when `docType` is `"proced"`. -/
def assemble (content dmc docType : Str) : Str :=
  let header := createS1000DHeader dmc docType
  let cleanedContent := cleanupAdocContent content
  if docType = jsStr "proced" then header ++ cleanedContent ++ createProceduralFooter
  else header ++ cleanedContent

/-- Does `p` occur at the start of the second argument? -/
def startsWithS : Str → Str → Bool
  | [], _ => true
  | _ :: _, [] => false
  | c :: p, d :: t => c = d && startsWithS p t

/-- JavaScript `s.includes(p)`: does `p` occur as a contiguous substring? -/
def hasSub (p : Str) : Str → Bool
  | [] => startsWithS p []
  | s@(_ :: t) => startsWithS p s || hasSub p t

/-- JavaScript `toLowerCase()` (ASCII fragment, as used on the ASCII
labels of the hierarchy). -/
def lowerStr (s : Str) : Str := s.map Char.toLower

/-- One node of the classification hierarchy: its display `label` and its
`children` (the other fields of the source's node objects play no part in
the search logic and are carried unchanged by the object spread). -/
inductive HNode where
  | mk (label : Str) (children : List HNode)
deriving Repr

/-- The display label of a node. -/
def HNode.label : HNode → Str
  | HNode.mk l _ => l

/-- The children of a node. -/
def HNode.children : HNode → List HNode
  | HNode.mk _ cs => cs

mutual
/-- Shallow embedding of the body of `filterNodes` inside
`filterSystemData` (src/unnamed/part_002, lines 199-201) for one node:
`selfMatch` is `node.label.toLowerCase().includes(query)`; the node maps to
a pruned copy when it matches or a filtered child remains, and to nothing
otherwise (the `.filter(Boolean)` drops the `null`s). -/
def filterNode (q : Str) : HNode → Option HNode
  | HNode.mk label children =>
    let selfMatch := hasSub q (lowerStr label)
    let filteredChildren := filterList q children
    if selfMatch || !filteredChildren.isEmpty then
      some (HNode.mk label (if selfMatch then children else filteredChildren))
    else none

/-- `filterNodes` over a list: `map` then `filter(Boolean)`. -/
def filterList (q : Str) : List HNode → List HNode
  | [] => []
  | n :: ns =>
    match filterNode q n with
    | some m => m :: filterList q ns
    | none => filterList q ns
end

/-- Shallow embedding of `filterSystemData` (src/unnamed/part_002,
lines 199-201), with the module-level `fullSystemData` passed explicitly:
the query is trimmed and lower-cased; an empty query returns the source
tree itself, else the pruned copy. -/
def filterSystemData (fullSystemData : List HNode) (query : Str) : List HNode :=
  let q := lowerStr (jsTrim query)
  if q = [] then fullSystemData else filterList q fullSystemData

mutual
/-- Spec-side retention predicate (spec section 4.5): a node is retained
iff its label matches the query case-insensitively as a substring or some
descendant's label does. -/
def specRetained (q : Str) : HNode → Bool
  | HNode.mk label children => hasSub q (lowerStr label) || specRetainedList q children

/-- Does any node of the list match or have a matching descendant? -/
def specRetainedList (q : Str) : List HNode → Bool
  | [] => false
  | n :: ns => specRetained q n || specRetainedList q ns
end

mutual
/-- Spec-side pruned copy of a retained node (spec section 4.5): a
matching node keeps all its children; a retained non-matching node keeps
only its retained children, each pruned in turn. -/
def specPrune (q : Str) : HNode → HNode
  | HNode.mk label children =>
    HNode.mk label (if hasSub q (lowerStr label) then children else specPruneList q children)

/-- Spec-side pruned copy of a forest: the retained nodes, in order, each
pruned. -/
def specPruneList (q : Str) : List HNode → List HNode
  | [] => []
  | n :: ns => (if specRetained q n then [specPrune q n] else []) ++ specPruneList q ns
end

/-- Spec-side `search` (spec section 4.5). -/
def searchSpec (q : Str) (tree : List HNode) : List HNode := specPruneList q tree

/-- A concrete hierarchy for the spec's "brake" example: a leaf "Brake
Assembly" under ancestors whose labels do not contain "brake". -/
def brakeTree : List HNode :=
  [HNode.mk (jsStr "100 - Chassis Group")
    [HNode.mk (jsStr "110 - Wheel System")
      [HNode.mk (jsStr "111 - Brake Assembly") []],
     HNode.mk (jsStr "120 - Engine System") []]]

-- ===================================================================
-- THEOREMS
-- ===================================================================

theorem splitSep_ne_nil (sep : Char) (s : Str) : splitSep sep s ≠ [] := by
  cases s with
  | nil => simp [splitSep]
  | cons c cs =>
    simp only [splitSep]
    split
    · simp
    · split <;> simp

theorem length_splitSep_pos (sep : Char) (s : Str) : 0 < (splitSep sep s).length := by
  cases h : splitSep sep s with
  | nil => exact absurd h (splitSep_ne_nil sep s)
  | cons p ps => simp

/-- Every field produced by `splitSep` is free of the separator. -/
theorem not_mem_of_mem_splitSep {sep : Char} {s : Str} {p : Str}
    (hp : p ∈ splitSep sep s) : sep ∉ p := by
  induction s generalizing p with
  | nil =>
    simp only [splitSep, List.mem_singleton] at hp
    simp [hp]
  | cons c cs ih =>
    simp only [splitSep] at hp
    by_cases hc : c = sep
    · rw [if_pos hc] at hp
      rcases List.mem_cons.mp hp with h | h
      · simp [h]
      · exact ih h
    · rw [if_neg hc] at hp
      rcases hq : splitSep sep cs with _ | ⟨q, qs⟩
      · exact absurd hq (splitSep_ne_nil sep cs)
      · rw [hq] at hp
        rcases List.mem_cons.mp hp with h | h
        · subst h
          intro hmem
          rcases List.mem_cons.mp hmem with h | h
          · exact hc h.symm
          · exact ih (hq ▸ List.mem_cons_self q qs) h
        · exact ih (hq ▸ List.mem_cons_of_mem q h)

theorem joinSep_cons_cons (sep : Char) (c : Char) (p : Str) (ps : List Str) :
    joinSep sep ((c :: p) :: ps) = c :: joinSep sep (p :: ps) := by
  cases ps <;> simp [joinSep]

/-- Splitting inverts joining (round trip starting from a string). -/
theorem joinSep_splitSep (sep : Char) (s : Str) :
    joinSep sep (splitSep sep s) = s := by
  induction s with
  | nil => simp [splitSep, joinSep]
  | cons c cs ih =>
    simp only [splitSep]
    by_cases hc : c = sep
    · rw [if_pos hc]
      rcases hq : splitSep sep cs with _ | ⟨q, qs⟩
      · exact absurd hq (splitSep_ne_nil sep cs)
      · rw [hq] at ih
        subst hc
        simp [joinSep, ih]
    · rw [if_neg hc]
      rcases hq : splitSep sep cs with _ | ⟨q, qs⟩
      · exact absurd hq (splitSep_ne_nil sep cs)
      · rw [hq] at ih
        rw [joinSep_cons_cons, ih]

/-- Splitting a string that has no separator yields the single field. -/
theorem splitSep_of_not_mem {sep : Char} {p : Str} (h : sep ∉ p) :
    splitSep sep p = [p] := by
  induction p with
  | nil => simp [splitSep]
  | cons c cs ih =>
    simp only [List.mem_cons, not_or] at h
    have hc : ¬(c = sep) := fun hh => h.1 hh.symm
    simp only [splitSep, if_neg hc, ih h.2]

/-- Splitting peels off a leading separator-free field. -/
theorem splitSep_append_cons {sep : Char} {p : Str} (t : Str) (h : sep ∉ p) :
    splitSep sep (p ++ sep :: t) = p :: splitSep sep t := by
  induction p with
  | nil => simp [splitSep]
  | cons c cs ih =>
    simp only [List.mem_cons, not_or] at h
    have hc : ¬(c = sep) := fun hh => h.1 hh.symm
    simp only [List.cons_append, splitSep, if_neg hc, List.append_eq, ih h.2]

/-- Joining inverts splitting, for nonempty lists of separator-free fields. -/
theorem splitSep_joinSep {sep : Char} {ps : List Str}
    (hne : ps ≠ []) (hfree : ∀ p ∈ ps, sep ∉ p) :
    splitSep sep (joinSep sep ps) = ps := by
  induction ps with
  | nil => exact absurd rfl hne
  | cons p qs ih =>
    cases qs with
    | nil =>
      simp only [joinSep]
      exact splitSep_of_not_mem (hfree p (List.mem_singleton_self p))
    | cons q rs =>
      simp only [joinSep]
      rw [splitSep_append_cons _ (hfree p (List.mem_cons_self _ _))]
      rw [ih (by simp) (fun r hr => hfree r (List.mem_cons_of_mem p hr))]

theorem mem_of_mem_jsCharAt {s : Str} {i : Nat} {c : Char} (h : c ∈ jsCharAt s i) : c ∈ s := by
  unfold jsCharAt at h
  cases hg : s[i]? with
  | none => rw [hg] at h; cases h
  | some d =>
    rw [hg] at h
    rcases List.mem_singleton.mp h with rfl
    exact List.getElem?_mem hg

theorem mem_of_mem_jsSliceLast {s : Str} {c : Char} (h : c ∈ jsSliceLast s) : c ∈ s := by
  unfold jsSliceLast at h
  cases hg : s.getLast? with
  | none => rw [hg] at h; cases h
  | some d =>
    rw [hg] at h
    rcases List.mem_singleton.mp h with rfl
    have hmem : c ∈ s.getLast? := Option.mem_def.mpr hg
    obtain ⟨hne, heq⟩ := List.mem_getLast?_eq_getLast hmem
    rw [heq]
    exact List.getLast_mem hne

/-- Unfolding of `processDMC` on inputs with exactly 9 fields. -/
theorem processDMC_of_length_nine {s : Str} (h9 : (splitSep '-' s).length = 9) :
    processDMC s =
      { dmc := joinSep '-' [(splitSep '-' s).get ⟨0, by omega⟩, (splitSep '-' s).get ⟨1, by omega⟩,
          (splitSep '-' s).get ⟨2, by omega⟩, jsCharAt ((splitSep '-' s).get ⟨3, by omega⟩) 0,
          jsCharAt ((splitSep '-' s).get ⟨3, by omega⟩) 1, (splitSep '-' s).get ⟨4, by omega⟩,
          (splitSep '-' s).get ⟨5, by omega⟩, ((splitSep '-' s).get ⟨6, by omega⟩).dropLast,
          jsSliceLast ((splitSep '-' s).get ⟨6, by omega⟩),
          ((splitSep '-' s).get ⟨7, by omega⟩).dropLast,
          jsSliceLast ((splitSep '-' s).get ⟨7, by omega⟩), (splitSep '-' s).get ⟨8, by omega⟩],
        docType := if ((splitSep '-' s).get ⟨7, by omega⟩).dropLast = jsStr "000"
          then jsStr "proced" else jsStr "descript" } := by
  simp only [processDMC]
  rw [dif_pos h9]

/-- Claim C1, counterexample: the spec's own example 9-segment legacy code
upgrades to a code with 12 hyphen-delimited segments, not 11. -/
theorem upgrade_eleven_segments_counterexample :
    (splitSep '-' (jsStr "MODEL-SDC-SYS-12-00-00-AB1-CD2-E")).length = 9 ∧
    (splitSep '-' (processDMC (jsStr "MODEL-SDC-SYS-12-00-00-AB1-CD2-E")).dmc).length ≠ 11 := by
  decide

/-- Claim C1 (amended): for every legacy code string with exactly 9
hyphen-delimited segments, `processDMC` produces a code with exactly 12
hyphen-delimited segments (field 4 splits in two, fields 7 and 8 each split
in two, so 9 + 3 = 12). -/
theorem upgrade_segment_count (s : Str) (h9 : (splitSep '-' s).length = 9) :
    (splitSep '-' (processDMC s).dmc).length = 12 := by
  rw [processDMC_of_length_nine h9]
  have hfree : ∀ p ∈ [(splitSep '-' s).get ⟨0, by omega⟩, (splitSep '-' s).get ⟨1, by omega⟩,
      (splitSep '-' s).get ⟨2, by omega⟩, jsCharAt ((splitSep '-' s).get ⟨3, by omega⟩) 0,
      jsCharAt ((splitSep '-' s).get ⟨3, by omega⟩) 1, (splitSep '-' s).get ⟨4, by omega⟩,
      (splitSep '-' s).get ⟨5, by omega⟩, ((splitSep '-' s).get ⟨6, by omega⟩).dropLast,
      jsSliceLast ((splitSep '-' s).get ⟨6, by omega⟩),
      ((splitSep '-' s).get ⟨7, by omega⟩).dropLast,
      jsSliceLast ((splitSep '-' s).get ⟨7, by omega⟩), (splitSep '-' s).get ⟨8, by omega⟩],
      '-' ∉ p := by
    intro p hp
    have hfield : ∀ i (h : i < (splitSep '-' s).length), '-' ∉ (splitSep '-' s).get ⟨i, h⟩ :=
      fun i h => not_mem_of_mem_splitSep (List.get_mem _ _ _)
    simp only [List.mem_cons, List.not_mem_nil, or_false] at hp
    rcases hp with rfl | rfl | rfl | rfl | rfl | rfl | rfl | rfl | rfl | rfl | rfl | rfl
    · exact hfield _ _
    · exact hfield _ _
    · exact hfield _ _
    · exact fun hc => hfield 3 (by omega) (mem_of_mem_jsCharAt hc)
    · exact fun hc => hfield 3 (by omega) (mem_of_mem_jsCharAt hc)
    · exact hfield _ _
    · exact hfield _ _
    · exact fun hc => hfield 6 (by omega) (List.mem_of_mem_dropLast hc)
    · exact fun hc => hfield 6 (by omega) (mem_of_mem_jsSliceLast hc)
    · exact fun hc => hfield 7 (by omega) (List.mem_of_mem_dropLast hc)
    · exact fun hc => hfield 7 (by omega) (mem_of_mem_jsSliceLast hc)
    · exact hfield _ _
  rw [splitSep_joinSep (by simp) hfree]
  rfl

/-- Claim C1 witness: the amended theorem at the concrete example code. -/
theorem upgrade_segment_count_witness :
    (splitSep '-' (jsStr "MODEL-SDC-SYS-12-00-00-AB1-CD2-E")).length = 9 ∧
    (splitSep '-' (processDMC (jsStr "MODEL-SDC-SYS-12-00-00-AB1-CD2-E")).dmc).length = 12 :=
  ⟨by decide, upgrade_segment_count _ (by decide)⟩

/-- Claim C3: for every 9-segment legacy code, the document type is
`"proced"` (procedural) exactly when the info code extracted from segment 8
(all characters except the last) equals `"000"`, and `"descript"`
(descriptive) otherwise. -/
theorem upgrade_docType_iff (s p8 : Str) (h9 : (splitSep '-' s).length = 9)
    (h8 : (splitSep '-' s).getD 7 [] = p8) :
    ((processDMC s).docType = jsStr "proced" ↔ p8.dropLast = jsStr "000") ∧
    (p8.dropLast ≠ jsStr "000" → (processDMC s).docType = jsStr "descript") := by
  have hbridge : (splitSep '-' s).get ⟨7, by omega⟩ = p8 := by
    have h7 : (7 : Nat) < (splitSep '-' s).length := by omega
    rw [← h8]
    simp [List.getD_eq_getElem?_getD, List.getElem?_eq_getElem h7, List.get_eq_getElem]
  rw [processDMC_of_length_nine h9]
  simp only [hbridge]
  by_cases hdt : p8.dropLast = jsStr "000"
  · rw [if_pos hdt]
    exact ⟨by simp [hdt], fun hne => absurd hdt hne⟩
  · rw [if_neg hdt]
    refine ⟨⟨fun hproc => absurd hproc.symm (by decide), fun h => absurd h hdt⟩, fun _ => rfl⟩

/-- Claim C3 witness: a concrete 9-segment code with info code `000`
classifies as procedural. -/
theorem upgrade_docType_iff_witness :
    (processDMC (jsStr "MODEL-SDC-SYS-12-00-00-AB1-000A-E")).docType = jsStr "proced" :=
  (upgrade_docType_iff (jsStr "MODEL-SDC-SYS-12-00-00-AB1-000A-E") (jsStr "000A")
    (by decide) (by decide)).1.mpr (by decide)

/-- Claim C5, counterexample: the spec's example input
`MODEL-SDC-SYS-12-00-AB1-CD2-E` has only 8 hyphen-delimited segments, so
`processDMC` passes it through unchanged; in particular the output's
subsystem field is not `"1"`. -/
theorem upgrade_example_counterexample :
    (splitSep '-' (jsStr "MODEL-SDC-SYS-12-00-AB1-CD2-E")).length = 8 ∧
    processDMC (jsStr "MODEL-SDC-SYS-12-00-AB1-CD2-E") =
      { dmc := jsStr "MODEL-SDC-SYS-12-00-AB1-CD2-E", docType := jsStr "descript" } ∧
    (splitSep '-' (processDMC (jsStr "MODEL-SDC-SYS-12-00-AB1-CD2-E")).dmc).getD 3 [] ≠
      jsStr "1" := by
  decide

/-- Claim C5 (amended): on the corrected 9-segment input
`MODEL-SDC-SYS-12-00-00-AB1-CD2-E` (one `00` segment inserted so that
segment 4 is `12`, segment 7 is `AB1` and segment 8 is `CD2`), the upgrade
yields subsystem `1`, sub-subsystem `2`, disassembly code `AB` with variant
`1`, info code `CD` with variant `2`, and document type descriptive. -/
theorem upgrade_example_corrected :
    processDMC (jsStr "MODEL-SDC-SYS-12-00-00-AB1-CD2-E") =
      { dmc := jsStr "MODEL-SDC-SYS-1-2-00-00-AB-1-CD-2-E", docType := jsStr "descript" } ∧
    (splitSep '-' (processDMC (jsStr "MODEL-SDC-SYS-12-00-00-AB1-CD2-E")).dmc).getD 3 [] =
      jsStr "1" ∧
    (splitSep '-' (processDMC (jsStr "MODEL-SDC-SYS-12-00-00-AB1-CD2-E")).dmc).getD 4 [] =
      jsStr "2" ∧
    (splitSep '-' (processDMC (jsStr "MODEL-SDC-SYS-12-00-00-AB1-CD2-E")).dmc).getD 7 [] =
      jsStr "AB" ∧
    (splitSep '-' (processDMC (jsStr "MODEL-SDC-SYS-12-00-00-AB1-CD2-E")).dmc).getD 8 [] =
      jsStr "1" ∧
    (splitSep '-' (processDMC (jsStr "MODEL-SDC-SYS-12-00-00-AB1-CD2-E")).dmc).getD 9 [] =
      jsStr "CD" ∧
    (splitSep '-' (processDMC (jsStr "MODEL-SDC-SYS-12-00-00-AB1-CD2-E")).dmc).getD 10 [] =
      jsStr "2" := by
  decide

/-- Claim C6: `processDMC` is a passthrough on every input that does not
have exactly 9 hyphen-delimited segments: the code is returned unchanged
and the document type is `"descript"` (descriptive). -/
theorem upgrade_passthrough (s : Str) (h : (splitSep '-' s).length ≠ 9) :
    processDMC s = { dmc := s, docType := jsStr "descript" } := by
  simp only [processDMC]
  rw [dif_neg h]

/-- Claim C6 witness: a concrete non-9-segment input. -/
theorem upgrade_passthrough_witness :
    (splitSep '-' (jsStr "ABC")).length ≠ 9 ∧
    processDMC (jsStr "ABC") = { dmc := jsStr "ABC", docType := jsStr "descript" } :=
  ⟨by decide, upgrade_passthrough _ (by decide)⟩

/-- Claim C4: `format` inverts `parse` on every string `parse` accepts, and
`parse` fails with a `FormatError` on every string whose segment count is
neither 9 nor 11. -/
theorem parse_format_roundtrip :
    (∀ s c, parse s = Except.ok c → format c = s) ∧
    (∀ s, (splitSep '-' s).length ≠ 9 → (splitSep '-' s).length ≠ 11 →
      parse s = Except.error FormatError.badSegmentCount) := by
  constructor
  · intro s c h
    simp only [parse] at h
    split at h
    · split at h
      · injection h with h'
        subst h'
        exact joinSep_splitSep '-' s
      · cases h
    · cases h
  · intro s h9 h11
    simp only [parse]
    rw [if_neg (fun hc => hc.elim h9 h11)]

/-- Claim C4 witness: the round trip at a concrete well-formed code and a
concrete failure at a 2-segment string. -/
theorem parse_format_roundtrip_witness :
    format ⟨splitSep '-' (jsStr "MODEL-SDC-SYS-12-00-00-AB1-CD2-E")⟩ =
      jsStr "MODEL-SDC-SYS-12-00-00-AB1-CD2-E" ∧
    parse (jsStr "A-B") = Except.error FormatError.badSegmentCount :=
  ⟨parse_format_roundtrip.1 _ _ (by rfl),
   parse_format_roundtrip.2 _ (by decide) (by decide)⟩

theorem digitChar_ne_hyphen (d : Nat) : digitChar d ≠ '-' := by
  unfold digitChar
  repeat' split
  all_goals decide

theorem hyphen_not_mem_natStr (n : Nat) : '-' ∉ natStr n := by
  induction n using Nat.strong_induction_on with
  | _ n ih =>
    rw [natStr]
    split
    · intro h
      exact digitChar_ne_hyphen n (List.mem_singleton.mp h).symm
    · intro h
      rcases List.mem_append.mp h with h | h
      · exact ih (n / 10) (Nat.div_lt_self (by omega) (by omega)) h
      · exact digitChar_ne_hyphen (n % 10) (List.mem_singleton.mp h).symm

theorem hyphen_not_mem_padStart2 {s : Str} (h : '-' ∉ s) : '-' ∉ padStart2 s := by
  unfold padStart2
  split
  · intro hm
    rcases List.mem_append.mp hm with hm | hm
    · exact absurd (List.eq_of_mem_replicate hm) (by decide)
    · exact h hm
  · exact h

/-- Fields of a generated DM code: splitting recovers the first five fields
whenever they are hyphen-free (the tail may contain anything). -/
theorem splitSep_dmCode (m s sys sub u dcv info ilc : Str)
    (hm : '-' ∉ m) (hs : '-' ∉ s) (hsys : '-' ∉ sys) (hsub : '-' ∉ sub) (hu : '-' ∉ u) :
    splitSep '-' (joinSep '-' [m, s, sys ++ '-' :: sub, u, dcv, info, ilc]) =
      m :: s :: sys :: sub :: u :: splitSep '-' (joinSep '-' [dcv, info, ilc]) := by
  simp only [joinSep]
  rw [List.append_assoc, List.cons_append]
  rw [splitSep_append_cons _ hm, splitSep_append_cons _ hs, splitSep_append_cons _ hsys,
    splitSep_append_cons _ hsub, splitSep_append_cons _ hu]

/-- Claim C7: with unit count zero (or unparsable, i.e. `parseInt` gave
`NaN`, modelled as `0`) `updateResult` produces exactly one code whose unit
field (hyphen field 4) is `"00"`; with unit count `N > 0` it produces
exactly `N` codes whose unit fields are the zero-padded decimal indices
`1..N`; and in both cases the disassembly-code part of hyphen field 5
defaults to `"00"` (zero-padded) when no table input exists for that unit,
followed by the variant `dmv`. -/
theorem buildCode_unit_codes
    (modelRaw sdcRaw dmvRaw infoVariantRaw : Str)
    (selectedBaseInfoCode selectedSystemCode selectedSubsystemCode : Str)
    (unitCount : Int) (dcValue : Nat → Option Str)
    (hm : jsTrim modelRaw ≠ []) (hs : jsTrim sdcRaw ≠ [])
    (hsy : selectedSystemCode ≠ []) (hdmv : ¬ 1 < (jsTrim dmvRaw).length)
    (hmh : '-' ∉ jsTrim modelRaw) (hsh : '-' ∉ jsTrim sdcRaw)
    (hsyh : '-' ∉ selectedSystemCode) (hsubh : '-' ∉ selectedSubsystemCode)
    (hdmvh : '-' ∉ jsTrim dmvRaw) :
    (unitCount ≤ 0 →
      (updateResult modelRaw sdcRaw dmvRaw infoVariantRaw selectedBaseInfoCode
          selectedSystemCode selectedSubsystemCode unitCount dcValue).length = 1 ∧
      (splitSep '-' ((updateResult modelRaw sdcRaw dmvRaw infoVariantRaw selectedBaseInfoCode
          selectedSystemCode selectedSubsystemCode unitCount dcValue).getD 0 [])).getD 4 [] =
        jsStr "00" ∧
      (dcValue 0 = none →
        (splitSep '-' ((updateResult modelRaw sdcRaw dmvRaw infoVariantRaw selectedBaseInfoCode
            selectedSystemCode selectedSubsystemCode unitCount dcValue).getD 0 [])).getD 5 [] =
          jsStr "00" ++ jsTrim dmvRaw)) ∧
    (0 < unitCount →
      (updateResult modelRaw sdcRaw dmvRaw infoVariantRaw selectedBaseInfoCode
          selectedSystemCode selectedSubsystemCode unitCount dcValue).length = unitCount.toNat ∧
      (∀ j, j < unitCount.toNat →
        (splitSep '-' ((updateResult modelRaw sdcRaw dmvRaw infoVariantRaw selectedBaseInfoCode
            selectedSystemCode selectedSubsystemCode unitCount dcValue).getD j [])).getD 4 [] =
          padStart2 (natStr (j + 1)) ∧
        (dcValue (j + 1) = none →
          (splitSep '-' ((updateResult modelRaw sdcRaw dmvRaw infoVariantRaw selectedBaseInfoCode
              selectedSystemCode selectedSubsystemCode unitCount dcValue).getD j [])).getD 5 [] =
            jsStr "00" ++ jsTrim dmvRaw))) := by
  have hguard : ¬(jsTrim modelRaw = [] ∨ jsTrim sdcRaw = [] ∨ selectedSystemCode = [] ∨
      1 < (jsTrim dmvRaw).length) := by
    intro hc
    rcases hc with h | h | h | h
    exacts [hm h, hs h, hsy h, hdmv h]
  have h00 : ('-' : Char) ∉ jsStr "00" := by decide
  constructor
  · intro h0
    simp only [updateResult, if_neg hguard, if_pos h0]
    refine ⟨rfl, ?_, ?_⟩
    · simp only [List.getD_cons_zero]
      rw [splitSep_dmCode _ _ _ _ _ _ _ _ hmh hsh hsyh hsubh h00]
      rfl
    · intro hnone
      simp only [List.getD_cons_zero, hnone]
      rw [splitSep_dmCode _ _ _ _ _ _ _ _ hmh hsh hsyh hsubh h00]
      have hdcv : ('-' : Char) ∉ padStart2 (jsStr "00") ++ jsTrim dmvRaw := by
        intro hmem
        rcases List.mem_append.mp hmem with hmem | hmem
        · exact hyphen_not_mem_padStart2 h00 hmem
        · exact hdmvh hmem
      have hsplit : splitSep '-' (joinSep '-' [padStart2 (jsStr "00") ++ jsTrim dmvRaw,
          if selectedBaseInfoCode ≠ [] then selectedBaseInfoCode ++ jsTrim infoVariantRaw
            else jsStr "000", jsStr "D"]) =
          (padStart2 (jsStr "00") ++ jsTrim dmvRaw) ::
            splitSep '-' (joinSep '-' [if selectedBaseInfoCode ≠ [] then
              selectedBaseInfoCode ++ jsTrim infoVariantRaw else jsStr "000", jsStr "D"]) := by
        simp only [joinSep]
        exact splitSep_append_cons _ hdcv
      simp only [hsplit, List.getD_cons_succ, List.getD_cons_zero]
      have hpad : padStart2 (jsStr "00") = jsStr "00" := by decide
      rw [hpad]
  · intro hpos
    have hnotle : ¬ unitCount ≤ 0 := by omega
    simp only [updateResult, if_neg hguard, if_neg hnotle]
    refine ⟨by simp, ?_⟩
    intro j hj
    have hmap : ((List.range unitCount.toNat).map (fun j =>
        joinSep '-' [jsTrim modelRaw, jsTrim sdcRaw,
          selectedSystemCode ++ '-' :: selectedSubsystemCode, padStart2 (natStr (j + 1)),
          padStart2 (match dcValue (j + 1) with | some v => jsTrim v | none => jsStr "00") ++
            jsTrim dmvRaw,
          if selectedBaseInfoCode ≠ [] then selectedBaseInfoCode ++ jsTrim infoVariantRaw
            else jsStr "000", jsStr "D"])).getD j [] =
        joinSep '-' [jsTrim modelRaw, jsTrim sdcRaw,
          selectedSystemCode ++ '-' :: selectedSubsystemCode, padStart2 (natStr (j + 1)),
          padStart2 (match dcValue (j + 1) with | some v => jsTrim v | none => jsStr "00") ++
            jsTrim dmvRaw,
          if selectedBaseInfoCode ≠ [] then selectedBaseInfoCode ++ jsTrim infoVariantRaw
            else jsStr "000", jsStr "D"] := by
      rw [List.getD_eq_getElem?_getD, List.getElem?_map, List.getElem?_range hj]
      rfl
    have hu : ('-' : Char) ∉ padStart2 (natStr (j + 1)) :=
      hyphen_not_mem_padStart2 (hyphen_not_mem_natStr (j + 1))
    constructor
    · rw [hmap, splitSep_dmCode _ _ _ _ _ _ _ _ hmh hsh hsyh hsubh hu]
      rfl
    · intro hnone
      rw [hmap]
      simp only [hnone]
      rw [splitSep_dmCode _ _ _ _ _ _ _ _ hmh hsh hsyh hsubh hu]
      have hdcv : ('-' : Char) ∉ padStart2 (jsStr "00") ++ jsTrim dmvRaw := by
        intro hmem
        rcases List.mem_append.mp hmem with hmem | hmem
        · exact hyphen_not_mem_padStart2 h00 hmem
        · exact hdmvh hmem
      have hsplit : splitSep '-' (joinSep '-' [padStart2 (jsStr "00") ++ jsTrim dmvRaw,
          if selectedBaseInfoCode ≠ [] then selectedBaseInfoCode ++ jsTrim infoVariantRaw
            else jsStr "000", jsStr "D"]) =
          (padStart2 (jsStr "00") ++ jsTrim dmvRaw) ::
            splitSep '-' (joinSep '-' [if selectedBaseInfoCode ≠ [] then
              selectedBaseInfoCode ++ jsTrim infoVariantRaw else jsStr "000", jsStr "D"]) := by
        simp only [joinSep]
        exact splitSep_append_cons _ hdcv
      simp only [hsplit, List.getD_cons_succ, List.getD_cons_zero]
      have hpad : padStart2 (jsStr "00") = jsStr "00" := by decide
      rw [hpad]

/-- Claim C7 witness: with unit count 3 and no per-unit entries, three codes
are produced with unit fields `01`, `02`, `03` and default disassembly field
`00`. -/
theorem buildCode_unit_codes_witness :
    (updateResult (jsStr "M") (jsStr "S") (jsStr "") (jsStr "") (jsStr "")
      (jsStr "21") (jsStr "3") 3 (fun _ => none)).length = 3 ∧
    (splitSep '-' ((updateResult (jsStr "M") (jsStr "S") (jsStr "") (jsStr "") (jsStr "")
      (jsStr "21") (jsStr "3") 3 (fun _ => none)).getD 0 [])).getD 4 [] = jsStr "01" ∧
    (splitSep '-' ((updateResult (jsStr "M") (jsStr "S") (jsStr "") (jsStr "") (jsStr "")
      (jsStr "21") (jsStr "3") 3 (fun _ => none)).getD 2 [])).getD 4 [] = jsStr "03" ∧
    (splitSep '-' ((updateResult (jsStr "M") (jsStr "S") (jsStr "") (jsStr "") (jsStr "")
      (jsStr "21") (jsStr "3") 3 (fun _ => none)).getD 1 [])).getD 5 [] = jsStr "00" := by
  have h := buildCode_unit_codes (jsStr "M") (jsStr "S") (jsStr "") (jsStr "") (jsStr "")
    (jsStr "21") (jsStr "3") 3 (fun _ => none)
    (by decide) (by decide) (by decide) (by decide) (by decide) (by decide) (by decide)
    (by decide) (by decide)
  obtain ⟨hlen, hall⟩ := h.2 (by decide)
  refine ⟨hlen, ?_, ?_, ?_⟩
  · exact ((hall 0 (by decide)).1).trans (by rw [natStr]; decide)
  · exact ((hall 2 (by decide)).1).trans (by rw [natStr]; decide)
  · exact (((hall 1 (by decide)).2) rfl).trans (by decide)

/-- Claim C8: `assemble` produces header + cleanup(body) for the
descriptive document type and header + cleanup(body) + footer for the
procedural one; for every docType other than `"proced"` no footer is
appended; normalization (`cleanupAdocContent`) is applied to the raw body
before concatenation with the header. -/
theorem assemble_header_body_footer (body dmc : Str) :
    assemble body dmc (jsStr "descript") =
      createS1000DHeader dmc (jsStr "descript") ++ cleanupAdocContent body ∧
    assemble body dmc (jsStr "proced") =
      createS1000DHeader dmc (jsStr "proced") ++ cleanupAdocContent body ++
        createProceduralFooter ∧
    (∀ docType : Str, docType ≠ jsStr "proced" →
      assemble body dmc docType = createS1000DHeader dmc docType ++ cleanupAdocContent body) := by
  refine ⟨?_, ?_, ?_⟩
  · simp only [assemble]
    rw [if_neg (by decide)]
  · simp [assemble]
  · intro dt hdt
    simp only [assemble]
    rw [if_neg hdt]

/-- Claim C8 witness: the no-footer branch at the concrete docType
`"fault"`. -/
theorem assemble_header_body_footer_witness :
    assemble (jsStr "body text") (jsStr "X") (jsStr "fault") =
      createS1000DHeader (jsStr "X") (jsStr "fault") ++ cleanupAdocContent (jsStr "body text") :=
  (assemble_header_body_footer (jsStr "body text") (jsStr "X")).2.2 _ (by decide)

set_option maxRecDepth 20000 in
/-- Claim C10: for every docType other than the exact string `"proced"`
(including `"fault"` and `"ipd"`), the assembler emits the descriptive
header — whose fixed template parts contain neither the "Preliminary
Requirements" nor the "Main Procedure" anchor — and appends no procedural
footer; only `"proced"` selects the procedural header (which does contain
both anchors) and the footer. -/
theorem descriptive_header_for_non_proced (dmc body docType : Str)
    (h : docType ≠ jsStr "proced") :
    createS1000DHeader dmc docType = descHeaderHead ++ dmc ++ descHeaderTail ∧
    createS1000DHeader dmc docType = createS1000DHeader dmc (jsStr "descript") ∧
    assemble body dmc docType = createS1000DHeader dmc docType ++ cleanupAdocContent body ∧
    hasSub (jsStr "Preliminary Requirements") descHeaderTail = false ∧
    hasSub (jsStr "Main Procedure") descHeaderTail = false ∧
    hasSub (jsStr "Preliminary Requirements") descHeaderHead = false ∧
    hasSub (jsStr "Main Procedure") descHeaderHead = false ∧
    createS1000DHeader dmc (jsStr "proced") = procHeaderHead ++ dmc ++ procHeaderTail ∧
    hasSub (jsStr "Preliminary Requirements") procHeaderTail = true ∧
    hasSub (jsStr "Main Procedure") procHeaderTail = true ∧
    assemble body dmc (jsStr "proced") =
      createS1000DHeader dmc (jsStr "proced") ++ cleanupAdocContent body ++
        createProceduralFooter := by
  refine ⟨?_, ?_, ?_, by decide, by decide, by decide, by decide, ?_, by decide, by decide, ?_⟩
  · simp only [createS1000DHeader]
    rw [if_neg h]
  · simp only [createS1000DHeader]
    rw [if_neg h, if_neg (by decide)]
  · simp only [assemble]
    rw [if_neg h]
  · simp [createS1000DHeader]
  · simp [assemble]

/-- Claim C10 witness: the descriptive header and footer-free assembly at
the concrete docType `"fault"`. -/
theorem descriptive_header_for_non_proced_witness :
    createS1000DHeader (jsStr "A-B") (jsStr "fault") =
      descHeaderHead ++ jsStr "A-B" ++ descHeaderTail ∧
    assemble (jsStr "text") (jsStr "A-B") (jsStr "fault") =
      createS1000DHeader (jsStr "A-B") (jsStr "fault") ++ cleanupAdocContent (jsStr "text") := by
  have h := descriptive_header_for_non_proced (jsStr "A-B") (jsStr "text") (jsStr "fault")
    (by decide)
  exact ⟨h.1, h.2.2.1⟩

theorem mem_catMap {f : α → List β} {l : List α} {b : β} :
    b ∈ catMap f l ↔ ∃ a ∈ l, b ∈ f a := by
  induction l with
  | nil => simp [catMap]
  | cons x xs ih =>
    simp only [catMap, List.mem_append, ih, List.mem_cons]
    constructor
    · rintro (h | ⟨a, ha, hb⟩)
      · exact ⟨x, Or.inl rfl, h⟩
      · exact ⟨a, Or.inr ha, hb⟩
    · rintro ⟨a, rfl | ha, hb⟩
      · exact Or.inl hb
      · exact Or.inr ⟨a, ha, hb⟩

theorem takesFrom_spec {cc : CC} {s : Str} {p : Str × Str} (h : p ∈ takesFrom cc s) :
    p.1 ++ p.2 = s ∧ p.1 ≠ [] ∧ ∀ a ∈ p.1, ccMatch cc a = true := by
  induction s generalizing p with
  | nil => simp [takesFrom] at h
  | cons c t ih =>
    simp only [takesFrom] at h
    by_cases hc : ccMatch cc c
    · rw [if_pos hc] at h
      rcases List.mem_cons.mp h with h | h
      · subst h
        exact ⟨rfl, by simp, by simp [hc]⟩
      · obtain ⟨q, hq, heq⟩ := List.mem_map.mp h
        obtain ⟨h1, h2, h3⟩ := ih hq
        subst heq
        refine ⟨by simp [← h1], by simp, ?_⟩
        intro a ha
        rcases List.mem_cons.mp ha with rfl | ha
        · exact hc
        · exact h3 a ha
    · rw [if_neg hc] at h
      simp at h

/-- Every candidate returned by the matcher consumes a prefix of `s`. -/
theorem mtch_consumed_append {re : RE} {prev : Option Char} {s : Str} {m : MRes}
    (h : m ∈ mtch re prev s) : m.consumed ++ m.remaining = s := by
  induction re generalizing prev s m with
  | eps =>
    simp only [mtch, List.mem_singleton] at h
    subst h
    rfl
  | cls cc =>
    cases s with
    | nil => simp [mtch] at h
    | cons c t =>
      simp only [mtch] at h
      split at h
      · simp only [List.mem_singleton] at h
        subst h
        rfl
      · simp at h
  | cat a b iha ihb =>
    unfold mtch at h
    obtain ⟨ra, hra, hm⟩ := mem_catMap.mp h
    obtain ⟨rb, hrb, heq⟩ := List.mem_map.mp hm
    subst heq
    have h1 := iha hra
    have h2 := ihb hrb
    simp only [List.append_assoc, h2, h1]
  | starG cc =>
    unfold mtch at h
    rcases List.mem_append.mp h with h | h
    · obtain ⟨q, hq, heq⟩ := List.mem_map.mp h
      subst heq
      exact (takesFrom_spec (List.mem_reverse.mp hq)).1
    · simp only [List.mem_singleton] at h
      subst h
      rfl
  | plusG cc =>
    unfold mtch at h
    obtain ⟨q, hq, heq⟩ := List.mem_map.mp h
    subst heq
    exact (takesFrom_spec (List.mem_reverse.mp hq)).1
  | plusL cc =>
    unfold mtch at h
    obtain ⟨q, hq, heq⟩ := List.mem_map.mp h
    subst heq
    exact (takesFrom_spec hq).1
  | bol =>
    cases prev with
    | none =>
      simp only [mtch, List.mem_singleton] at h
      subst h
      rfl
    | some c =>
      simp only [mtch] at h
      split at h
      · simp only [List.mem_singleton] at h
        subst h
        rfl
      · simp at h
  | eol =>
    cases s with
    | nil =>
      simp only [mtch, List.mem_singleton] at h
      subst h
      rfl
    | cons c t =>
      simp only [mtch] at h
      split at h
      · simp only [List.mem_singleton] at h
        subst h
        rfl
      · simp at h
  | grp r ihr =>
    unfold mtch at h
    obtain ⟨m', hm', heq⟩ := List.mem_map.mp h
    subst heq
    simpa using ihr hm'

/-- When a regex has a mandatory literal character, every match consumes
it. -/
theorem mandatory_mem {c : Char} {re : RE} (hre : mandatory c re = true)
    {prev : Option Char} {s : Str} {m : MRes} (h : m ∈ mtch re prev s) :
    c ∈ m.consumed := by
  induction re generalizing prev s m with
  | eps => simp [mandatory] at hre
  | cls cc =>
    simp only [mandatory, decide_eq_true_eq] at hre
    subst hre
    cases s with
    | nil => simp [mtch] at h
    | cons d t =>
      simp only [mtch] at h
      split at h
      · simp only [List.mem_singleton] at h
        subst h
        rename_i hd
        simp only [ccMatch, decide_eq_true_eq] at hd
        simp [hd]
      · simp at h
  | cat a b iha ihb =>
    unfold mtch at h
    obtain ⟨ra, hra, hm⟩ := mem_catMap.mp h
    obtain ⟨rb, hrb, heq⟩ := List.mem_map.mp hm
    subst heq
    simp only [mandatory, Bool.or_eq_true] at hre
    rcases hre with hre | hre
    · exact List.mem_append_left _ (iha hre hra)
    · exact List.mem_append_right _ (ihb hre hrb)
  | starG cc => simp [mandatory] at hre
  | plusG cc =>
    simp only [mandatory, decide_eq_true_eq] at hre
    subst hre
    unfold mtch at h
    obtain ⟨q, hq, heq⟩ := List.mem_map.mp h
    subst heq
    obtain ⟨h1, h2, h3⟩ := takesFrom_spec (List.mem_reverse.mp hq)
    obtain ⟨d, hd⟩ := List.exists_mem_of_ne_nil _ h2
    have := h3 d hd
    simp only [ccMatch, decide_eq_true_eq] at this
    subst this
    exact hd
  | plusL cc =>
    simp only [mandatory, decide_eq_true_eq] at hre
    subst hre
    unfold mtch at h
    obtain ⟨q, hq, heq⟩ := List.mem_map.mp h
    subst heq
    obtain ⟨h1, h2, h3⟩ := takesFrom_spec hq
    obtain ⟨d, hd⟩ := List.exists_mem_of_ne_nil _ h2
    have := h3 d hd
    simp only [ccMatch, decide_eq_true_eq] at this
    subst this
    exact hd
  | bol => simp [mandatory] at hre
  | eol => simp [mandatory] at hre
  | grp r ihr =>
    unfold mtch at h
    obtain ⟨m', hm', heq⟩ := List.mem_map.mp h
    subst heq
    simp only [mandatory] at hre
    simpa using ihr hre hm'

/-- A regex with a mandatory character has no match at the start of a
string not containing it. -/
theorem mtch_eq_nil_of_not_mem {c : Char} {re : RE} (hre : mandatory c re = true)
    {prev : Option Char} {s : Str} (hc : c ∉ s) : mtch re prev s = [] := by
  cases hm : mtch re prev s with
  | nil => rfl
  | cons m ms =>
    exfalso
    have h1 : c ∈ m.consumed := mandatory_mem hre (hm ▸ List.mem_cons_self m ms)
    have h2 : m.consumed ++ m.remaining = s :=
      mtch_consumed_append (hm ▸ List.mem_cons_self m ms)
    exact hc (h2 ▸ List.mem_append_left _ h1)

/-- A regex with a mandatory character finds no match anywhere in a string
not containing it. -/
theorem findFrom_eq_none {c : Char} {re : RE} (hre : mandatory c re = true)
    {s : Str} : ∀ {prev : Option Char}, c ∉ s → findFrom re prev s = none := by
  induction s with
  | nil =>
    intro prev h
    simp [findFrom, mtch_eq_nil_of_not_mem hre h]
  | cons d t ih =>
    intro prev h
    simp only [List.mem_cons, not_or] at h
    simp only [findFrom, mtch_eq_nil_of_not_mem hre (by simp [h.1, h.2] : c ∉ d :: t),
      List.head?_nil]
    rw [ih h.2]
    rfl

/-- A global replacement with such a regex leaves such a string unchanged. -/
theorem replaceG_eq_self {c : Char} {re : RE} (hre : mandatory c re = true)
    {tmpl : Option Str → Str} {s : Str} (hc : c ∉ s) : replaceG re tmpl s = s := by
  unfold replaceG
  simp only [replaceGAux, findFrom_eq_none hre hc]

/-- Claim C2, counterexample: `cleanup` is not idempotent.  On `"a++"` the
first pass removes only the final `+` (the lazy group `(.+?)` keeps the
other one), leaving a new trailing `+` that a second pass removes too. -/
theorem cleanup_not_idempotent_counterexample :
    cleanupAdocContent (jsStr "a++") = jsStr "a+" ∧
    cleanupAdocContent (jsStr "a+") = jsStr "a" ∧
    cleanupAdocContent (cleanupAdocContent (jsStr "a++")) ≠
      cleanupAdocContent (jsStr "a++") := by
  decide

/-- Claim C2 (amended): `cleanup` is idempotent on every text containing
none of the characters `+`, `{` and `-` (each of the five replacement
regexes then matches nowhere, so `cleanup` is the identity there); on
arbitrary text idempotence fails, a line ending in `++` being a
counterexample. -/
theorem cleanup_idempotent_plain (x : Str)
    (h1 : '+' ∉ x) (h2 : '{' ∉ x) (h3 : '-' ∉ x) :
    cleanupAdocContent x = x ∧
    cleanupAdocContent (cleanupAdocContent x) = cleanupAdocContent x := by
  have hid : cleanupAdocContent x = x := by
    simp only [cleanupAdocContent]
    rw [replaceG_eq_self (c := '+') (by decide) h1,
      replaceG_eq_self (c := '{') (by decide) h2,
      replaceG_eq_self (c := '-') (by decide) h3,
      replaceG_eq_self (c := '-') (by decide) h3,
      replaceG_eq_self (c := '-') (by decide) h3]
  refine ⟨hid, ?_⟩
  rw [hid]
  exact hid

/-- Claim C2 witness: idempotence at a concrete plain text. -/
theorem cleanup_idempotent_plain_witness :
    cleanupAdocContent (jsStr "hello world") = jsStr "hello world" ∧
    cleanupAdocContent (cleanupAdocContent (jsStr "hello world")) =
      cleanupAdocContent (jsStr "hello world") :=
  cleanup_idempotent_plain _ (by decide) (by decide) (by decide)

theorem specPruneList_eq_nil_iff (q : Str) (ns : List HNode) :
    specPruneList q ns = [] ↔ specRetainedList q ns = false := by
  induction ns with
  | nil => simp [specPruneList, specRetainedList]
  | cons n ns ih =>
    simp only [specPruneList, specRetainedList]
    by_cases hr : specRetained q n <;> simp [hr, ih]

mutual
theorem filterNode_eq_spec (q : Str) (n : HNode) :
    filterNode q n = if specRetained q n then some (specPrune q n) else none := by
  cases n with
  | mk l cs =>
    simp only [filterNode]
    rw [filterList_eq_spec q cs]
    simp only [specRetained, specPrune]
    by_cases hm : hasSub q (lowerStr l)
    · simp [hm]
    · by_cases hr : specRetainedList q cs
      · have hne : specPruneList q cs ≠ [] := by
          rw [Ne, specPruneList_eq_nil_iff]
          simp [hr]
        simp [hm, hr, hne]
      · have hnil : specPruneList q cs = [] :=
          (specPruneList_eq_nil_iff q cs).mpr (by simpa using hr)
        simp [hm, hr, hnil]

theorem filterList_eq_spec (q : Str) (ns : List HNode) :
    filterList q ns = specPruneList q ns := by
  cases ns with
  | nil => rfl
  | cons n ns =>
    simp only [filterList, specPruneList]
    rw [filterNode_eq_spec q n, filterList_eq_spec q ns]
    by_cases hr : specRetained q n <;> simp [hr]
end

/-- Claim C9: for every nonblank query, hierarchy search equals the
spec-side search: the query is matched case-insensitively as a substring of
each node's display label; a node is retained exactly when its own label
matches or some descendant's label matches; a retained non-matching node
keeps only its retained children; and the result is a pruned copy built
with fresh nodes (the model is pure, and the JavaScript object spread never
mutates the source tree). -/
theorem hierarchy_search_spec (tree : List HNode) (query : Str)
    (hq : lowerStr (jsTrim query) ≠ []) :
    filterSystemData tree query = searchSpec (lowerStr (jsTrim query)) tree := by
  simp only [filterSystemData, searchSpec]
  rw [if_neg hq]
  exact filterList_eq_spec _ tree

/-- Claim C9 witness: searching `"Brake"` retains the "Brake Assembly"
leaf and both of its ancestors, whose labels do not contain "brake", and
drops the sibling branch. -/
theorem hierarchy_search_spec_witness :
    filterSystemData brakeTree (jsStr "Brake") =
      searchSpec (lowerStr (jsTrim (jsStr "Brake"))) brakeTree ∧
    filterSystemData brakeTree (jsStr "Brake") =
      [HNode.mk (jsStr "100 - Chassis Group")
        [HNode.mk (jsStr "110 - Wheel System")
          [HNode.mk (jsStr "111 - Brake Assembly") []]]] := by
  refine ⟨hierarchy_search_spec brakeTree (jsStr "Brake") (by decide), ?_⟩
  rfl
